import Mathlib

/-!
Verification of the heuristic question-extraction pipeline of the
`analyzethepast` repository (`src/services/deepSeekService.ts`, plus the
richer page variant).  Text is modelled as a list of Unicode code points
(`List Nat`); every JavaScript string operation and every regular
expression used by the source is translated into an executable Lean
function over that representation, and the claims of the specification
are settled as theorems about those functions.
-/

set_option maxRecDepth 10000

namespace AnalyzeThePast

/-- Code points of a string literal; the text representation used throughout. -/
def str (s : String) : List Nat := s.data.map Char.toNat

/-- JavaScript `toLowerCase` restricted to ASCII letters. -/
def lc (n : Nat) : Nat := if 65 ≤ n ∧ n ≤ 90 then n + 32 else n

/-- JavaScript `toUpperCase` restricted to ASCII letters. -/
def uc (n : Nat) : Nat := if 97 ≤ n ∧ n ≤ 122 then n - 32 else n

/-- Regex class `\d`. -/
def isDigitN (n : Nat) : Bool := decide (48 ≤ n ∧ n ≤ 57)

/-- Regex class `[A-Z]`. -/
def isUpperN (n : Nat) : Bool := decide (65 ≤ n ∧ n ≤ 90)

/-- Regex class `[a-z]`. -/
def isLowerN (n : Nat) : Bool := decide (97 ≤ n ∧ n ≤ 122)

/-- Regex class `\w` (word character). -/
def isWordN (n : Nat) : Bool := isDigitN n || isUpperN n || isLowerN n || n == 95

/-- Regex class `\s` / the character set removed by `String.trim` in JS. -/
def isSpaceN (n : Nat) : Bool :=
  n == 32 || n == 9 || n == 10 || n == 11 || n == 12 || n == 13 || n == 160

/-- JavaScript line terminators (excluded by `.` without the `s` flag,
matched by `$` under the `m` flag). -/
def isTermN (n : Nat) : Bool := n == 10 || n == 13 || n == 8232 || n == 8233

/-- Does `n` occur as a prefix of `h`?  (JS `String.startsWith`.) -/
def hasPre : List Nat → List Nat → Bool
  | [], _ => true
  | _ :: _, [] => false
  | a :: n, b :: h => a == b && hasPre n h

/-- Does `n` occur as a contiguous substring of `h`?  (JS `String.includes`.) -/
def containsSub (n : List Nat) : List Nat → Bool
  | [] => hasPre n []
  | c :: t => hasPre n (c :: t) || containsSub n t

/-- JS `String.trim`. -/
def trimL (s : List Nat) : List Nat :=
  ((s.dropWhile isSpaceN).reverse.dropWhile isSpaceN).reverse

/-- First-occurrence deduplication with an accumulator of already seen
elements; `dedupAux []` is the order of `Array.from(new Set(xs))` in JS. -/
def dedupAux (seen : List (List Nat)) : List (List Nat) → List (List Nat)
  | [] => []
  | x :: r => if x ∈ seen then dedupAux seen r else x :: dedupAux (x :: seen) r

/-- JS `Array.from(new Set(xs))`: duplicates removed, first occurrences kept. -/
def dedupFirst (l : List (List Nat)) : List (List Nat) := dedupAux [] l

/-- JS `String.split(' ')` (single-space separator, empty segments kept). -/
def splitSp : List Nat → List (List Nat)
  | [] => [[]]
  | c :: t =>
    if c == 32 then [] :: splitSp t
    else
      match splitSp t with
      | [] => [[c]]
      | w :: ws => (c :: w) :: ws

/-- JS `Array.join(' ')`. -/
def joinSp : List (List Nat) → List Nat
  | [] => []
  | [w] => w
  | w :: ws => w ++ 32 :: joinSp ws

/-- One word of `standardizeTopics`'s title-casing:
`word.charAt(0).toUpperCase() + word.slice(1).toLowerCase()`. -/
def tcWord : List Nat → List Nat
  | [] => []
  | c :: r => uc c :: r.map lc

/-- Title-casing of a whole topic: split on spaces, title-case each word, re-join. -/
def tcTopic (t : List Nat) : List Nat := joinSp ((splitSp t).map tcWord)

/-- The fixed action-verb list of `standardizeTopics`. -/
def actionVerbs : List (List Nat) :=
  [str ("explain"), str ("describe"), str ("write"), str ("list"),
   str ("illustrate"), str ("outline"), str ("discuss"), str ("define"),
   str ("analyze"), str ("compare")]

/-- The fixed stop-word list of `standardizeTopics`. -/
def commonWords : List (List Nat) :=
  [str ("the"), str ("a"), str ("an"), str ("and"), str ("or"), str ("but"),
   str ("in"), str ("on"), str ("at"), str ("to"), str ("for")]

/-- The filter predicate of `standardizeTopics`: keep a topic unless its
lowercase form starts with an action verb or equals a stop word. -/
def topicKept (t : List Nat) : Bool :=
  let lt := t.map lc
  !(actionVerbs.any fun v => hasPre v lt) && !(commonWords.any fun w => w == lt)

/-- `standardizeTopics` from `deepSeekService.ts`: filter by `topicKept`,
deduplicate with a `Set` (first occurrences), then title-case each topic. -/
def standardizeTopics (topics : List (List Nat)) : List (List Nat) :=
  (dedupFirst (topics.filter topicKept)).map tcTopic

/-- Case-insensitive prefix test against an already lowercase pattern. -/
def ciHasPre : List Nat → List Nat → Bool
  | [], _ => true
  | _ :: _, [] => false
  | a :: n, b :: h => a == lc b && ciHasPre n h

/-- Length of the maximal run of digits at the front (greedy `\d+` / `\d{i,j}`). -/
def digitRunL : List Nat → Nat
  | [] => 0
  | c :: t => if isDigitN c then digitRunL t + 1 else 0

/-- Length of the maximal run of whitespace at the front (greedy `\s+` / `\s*`). -/
def spaceRunL : List Nat → Nat
  | [] => 0
  | c :: t => if isSpaceN c then spaceRunL t + 1 else 0

/-- Length of the maximal run of lowercase letters at the front. -/
def lowRunL : List Nat → Nat
  | [] => 0
  | c :: t => if isLowerN c then lowRunL t + 1 else 0

/-- Word boundary `\b` after a word character: end of text or a non-word char. -/
def bAfter : List Nat → Bool
  | [] => true
  | d :: _ => !isWordN d

/-- Does the suffix start with `20` followed by two digits (`\b20\d{2}`,
the shared head of all six year patterns)? -/
def y20 : List Nat → Bool
  | a :: b :: c :: d :: _ => a == 50 && b == 48 && isDigitN c && isDigitN d
  | _ => false

/-- Matcher for `/\b20\d{2}\b/` at one position (`pw` = previous char is a
word character). Returns the match length. -/
def matchY1 (pw : Bool) (u : List Nat) : Option Nat :=
  if !pw && y20 u && bAfter (u.drop 4) then some 4 else none

/-- Matcher for `/\b20\d{2}-\d{2,4}\b/` at one position.  Greedy `\d{2,4}`
followed by `\b` succeeds exactly when the digit run after the hyphen has
length 2..4 and is followed by a non-word char or the end. -/
def matchY2 (pw : Bool) (u : List Nat) : Option Nat :=
  if !pw && y20 u && ((u.drop 4).head? == some 45) then
    let r := digitRunL (u.drop 5)
    if decide (2 ≤ r ∧ r ≤ 4) && bAfter (u.drop (5 + r)) then some (5 + r) else none
  else none

/-- Matcher for `/\b20\d{2}\/\d{2,4}\b/` at one position. -/
def matchY3 (pw : Bool) (u : List Nat) : Option Nat :=
  if !pw && y20 u && ((u.drop 4).head? == some 47) then
    let r := digitRunL (u.drop 5)
    if decide (2 ≤ r ∧ r ≤ 4) && bAfter (u.drop (5 + r)) then some (5 + r) else none
  else none

/-- Matcher for `/\b20\d{2}\s*\(\s*\d{2,4}\s*\)/` at one position (no
trailing `\b` in the source pattern). -/
def matchY4 (pw : Bool) (u : List Nat) : Option Nat :=
  if !pw && y20 u then
    let w1 := spaceRunL (u.drop 4)
    if (u.drop (4 + w1)).head? == some 40 then
      let w2 := spaceRunL (u.drop (5 + w1))
      let r := digitRunL (u.drop (5 + w1 + w2))
      if decide (2 ≤ r ∧ r ≤ 4) then
        let w3 := spaceRunL (u.drop (5 + w1 + w2 + r))
        if (u.drop (5 + w1 + w2 + r + w3)).head? == some 41 then
          some (5 + w1 + w2 + r + w3 + 1)
        else none
      else none
    else none
  else none

/-- Matcher for `/\b20\d{2}\s*batch\b/i` at one position. -/
def matchY5 (pw : Bool) (u : List Nat) : Option Nat :=
  if !pw && y20 u then
    let w := spaceRunL (u.drop 4)
    if ciHasPre (str ("batch")) (u.drop (4 + w)) && bAfter (u.drop (4 + w + 5)) then
      some (4 + w + 5)
    else none
  else none

/-- Matcher for `/\b20\d{2}\s*scheme\b/i` at one position. -/
def matchY6 (pw : Bool) (u : List Nat) : Option Nat :=
  if !pw && y20 u then
    let w := spaceRunL (u.drop 4)
    if ciHasPre (str ("scheme")) (u.drop (4 + w)) && bAfter (u.drop (4 + w + 6)) then
      some (4 + w + 6)
    else none
  else none

/-- JS `text.match(re)` without the `g` flag: scan positions left to right,
return the first match.  `pw` tracks whether the previous char is a word
character (for `\b`). -/
def scanFirst (f : Bool → List Nat → Option Nat) : Bool → List Nat → Option (List Nat)
  | _, [] => none
  | pw, c :: t =>
    match f pw (c :: t) with
    | some k => some ((c :: t).take k)
    | none => scanFirst f (isWordN c) t

/-- The six year patterns of `extractYearFromText`, in source order. -/
def yearScanners : List (Bool → List Nat → Option Nat) :=
  [matchY1, matchY2, matchY3, matchY4, matchY5, matchY6]

/-- `match[0].replace(/[^0-9\-\/]/g, '')`. -/
def cleanYear (m : List Nat) : List Nat :=
  m.filter fun c => isDigitN c || c == 45 || c == 47

/-- `extractYearFromText` from `deepSeekService.ts`: try the six patterns in
order, return the first pattern's first match cleaned to digits/hyphen/slash,
or `none` when no pattern matches. -/
def extractYearFromText (text : List Nat) : Option (List Nat) :=
  (yearScanners.findSome? fun f => scanFirst f false text).map cleanYear

/-- Count of matches of `new RegExp("\\b" + kw + "\\b", "gi")` on a lowercase
text: leftmost non-overlapping scan.  All keywords in the fixed table begin
and end with a lowercase letter, so both boundaries reduce to "adjacent char
is not a word character"; after a match the scan resumes at its end (whose
preceding char is a word character). -/
def countWB (kw : List Nat) : Nat → Bool → List Nat → Nat
  | 0, _, _ => 0
  | _, _, [] => 0
  | f + 1, pw, c :: t =>
    if !pw && hasPre kw (c :: t) && bAfter ((c :: t).drop kw.length) then
      countWB kw f true ((c :: t).drop kw.length) + 1
    else countWB kw f (isWordN c) t

/-- Number of whole-word occurrences of `kw` in `t`. -/
def countOcc (kw t : List Nat) : Nat := countWB kw (t.length + 1) false t

/-- The fixed subject/keyword table of `determineSubject`, in source order. -/
def subjectTable : List (List Nat × List (List Nat)) :=
  [(str ("Computer Science"),
    [str ("computer"), str ("programming"), str ("algorithm"),
     str ("data structure"), str ("software")]),
   (str ("Mathematics"),
    [str ("math"), str ("calculus"), str ("algebra"), str ("geometry"),
     str ("equation")]),
   (str ("Physics"),
    [str ("physics"), str ("mechanics"), str ("electromagnetism"),
     str ("thermodynamics")]),
   (str ("Chemistry"),
    [str ("chemistry"), str ("molecule"), str ("compound"), str ("reaction")]),
   (str ("Biology"),
    [str ("biology"), str ("cell"), str ("organism"), str ("gene")]),
   (str ("Engineering"),
    [str ("engineering"), str ("circuit"), str ("design"), str ("system")]),
   (str ("History"),
    [str ("history"), str ("civilization"), str ("century"), str ("empire")]),
   (str ("Literature"),
    [str ("literature"), str ("poem"), str ("novel"), str ("author")])]

/-- Per-subject scores of `determineSubject`, in table order. -/
def subjectScores (text : List Nat) : List (List Nat × Nat) :=
  let lt := text.map lc
  subjectTable.map fun p => (p.1, (p.2.map fun kw => countOcc kw lt).sum)

/-- The selection loop of `determineSubject`: replace the best only on a
strictly greater score. -/
def pickBest : (List Nat × Nat) → List (List Nat × Nat) → (List Nat × Nat)
  | acc, [] => acc
  | acc, p :: r => pickBest (if acc.2 < p.2 then p else acc) r

/-- `determineSubject` from `deepSeekService.ts`. -/
def determineSubject (text : List Nat) : List Nat :=
  (pickBest (str ("General"), 0) (subjectScores text)).1

/-- Does the suffix start with `\d+\.` (taking the maximal digit run)? -/
def digitDotL (u : List Nat) : Bool :=
  let d := digitRunL u
  decide (1 ≤ d) && (u.drop d).head? == some 46

/-- Lazy `.+?` of pattern 1 (`s` flag: any char), on the text after
`\d+\.\s`: smallest k ≥ 1 whose end satisfies the lookahead `(?=\d+\.|$)`. -/
def lazyEndP1 : List Nat → Nat
  | [] => 0
  | _ :: t => if t.isEmpty || digitDotL t then 1 else 1 + lazyEndP1 t

/-- Matcher for `/(\d+\.\s.+?)(?=\d+\.|$)/gs` at one position: maximal digit
run, a literal dot, one whitespace char, then the lazy tail. -/
def matchP1At (u : List Nat) : Option Nat :=
  let d := digitRunL u
  if d == 0 then none
  else if !((u.drop d).head? == some 46) then none
  else
    match u.drop (d + 1) with
    | c :: rest =>
      if isSpaceN c && !rest.isEmpty then some (d + 2 + lazyEndP1 rest) else none
    | [] => none

/-- Non-overlapping global scan for pattern 1 (`matchAll`): on success resume
after the match, on failure advance one position. -/
def scanP1 : Nat → List Nat → List (List Nat)
  | 0, _ => []
  | _, [] => []
  | f + 1, c :: t =>
    match matchP1At (c :: t) with
    | some k => (c :: t).take k :: scanP1 f ((c :: t).drop k)
    | none => scanP1 f t

/-- Tail of the lookahead of pattern 3 after `Question`/`Q`: `\.?\s*\d+`,
with both choices of the optional dot. -/
def optDotWsDigit (v : List Nat) : Bool :=
  (v.head? == some 46 &&
    decide (1 ≤ digitRunL ((v.drop 1).drop (spaceRunL (v.drop 1)))))
  || decide (1 ≤ digitRunL (v.drop (spaceRunL v)))

/-- Lookahead `(?=(?:Question|Q)\.?\s*\d+|...)` of pattern 3 (the `$`
alternative is handled by the caller), case-insensitive. -/
def lookP3 (u : List Nat) : Bool :=
  (ciHasPre (str ("question")) u && optDotWsDigit (u.drop 8))
  || ((u.head? == some 113 || u.head? == some 81) && optDotWsDigit (u.drop 1))

/-- Lazy `.+?` of pattern 3 (dotall): smallest k ≥ 1 whose end satisfies the
lookahead or is the end of the text. -/
def lazyEndP3 : List Nat → Nat
  | [] => 0
  | _ :: t => if t.isEmpty || lookP3 t then 1 else 1 + lazyEndP3 t

/-- Body of pattern 3 after a `Question`/`Q` prefix of length `p`:
`\.?\s*(\d+.+?)` up to the lookahead.  When the digit run reaches the end of
the text the engine backtracks `\d+` by one so that `.+?` can consume the
last digit, which needs at least two digits. -/
def matchP3Body (p : Nat) (u : List Nat) : Option Nat :=
  let dot := if u.head? == some 46 then 1 else 0
  let u1 := u.drop dot
  let w := spaceRunL u1
  let u2 := u1.drop w
  let m := digitRunL u2
  if m == 0 then none
  else
    match u2.drop m with
    | [] => if decide (2 ≤ m) then some (p + dot + w + m) else none
    | _ :: _ => some (p + dot + w + m + lazyEndP3 (u2.drop m))

/-- Matcher for `/(?:Question|Q)\.?\s*(\d+.+?)(?=(?:Question|Q)\.?\s*\d+|$)/gis`
at one position.  When the text starts with `question` (case-insensitively)
the `Q` alternative cannot succeed either (the char after `Q` is `u`), so the
branch order of the alternation reduces to this if-chain. -/
def matchP3At (u : List Nat) : Option Nat :=
  if ciHasPre (str ("question")) u then matchP3Body 8 (u.drop 8)
  else if u.head? == some 113 || u.head? == some 81 then matchP3Body 1 (u.drop 1)
  else none

/-- Non-overlapping global scan for pattern 3. -/
def scanP3 : Nat → List Nat → List (List Nat)
  | 0, _ => []
  | _, [] => []
  | f + 1, c :: t =>
    match matchP3At (c :: t) with
    | some k => (c :: t).take k :: scanP3 f ((c :: t).drop k)
    | none => scanP3 f t

/-- Count of leading non-line-terminator chars (how far `.` without the `s`
flag can reach). -/
def lenToTerm : List Nat → Nat
  | [] => 0
  | c :: t => if isTermN c then 0 else 1 + lenToTerm t

/-- Backtracking search for the greedy `\s+` of pattern 2: the largest
`w ∈ [1, wmax]` such that the char right after the `w` whitespace chars
exists and is not a line terminator (so that `.+?` can start). -/
def findW (u : List Nat) : Nat → Option Nat
  | 0 => none
  | w + 1 =>
    match (u.drop (w + 1)).head? with
    | some d => if !isTermN d then some (w + 1) else findW u w
    | none => findW u w

/-- Body of pattern 2 after the `(?:^|\n)` alternative, `off` being the
length that alternative consumed: `\d+\s+.+?` up to the multiline lookahead
`(?=\n\d+\s|$)`.  Under the `m` flag `$` matches before any line terminator,
which subsumes the `\n\d+\s` alternative, so the lazy `.+?` stops exactly at
the first line terminator or the end of the text. -/
def matchP2Body (off : Nat) (t : List Nat) : Option Nat :=
  let m := digitRunL t
  if m == 0 then none
  else
    let u := t.drop m
    let wmax := spaceRunL u
    if wmax == 0 then none
    else
      match findW u wmax with
      | some w => some (off + m + w + lenToTerm (u.drop w))
      | none => none

/-- Matcher for `/(?:^|\n)(\d+\s+.+?)(?=\n\d+\s|$)/gm` at one position;
`startOk` says whether `^` matches here (start of text or after a line
terminator). -/
def matchP2At (startOk : Bool) (u : List Nat) : Option Nat :=
  match (if startOk then matchP2Body 0 u else none) with
  | some k => some k
  | none =>
    match u with
    | c :: t => if c == 10 then matchP2Body 1 t else none
    | [] => none

/-- Non-overlapping global scan for pattern 2, tracking whether `^` matches
at the current position. -/
def scanP2 : Nat → Bool → List Nat → List (List Nat)
  | 0, _, _ => []
  | _, _, [] => []
  | f + 1, so, c :: t =>
    match matchP2At so (c :: t) with
    | some k =>
      (c :: t).take k :: scanP2 f (isTermN ((c :: t).getD (k - 1) 0)) ((c :: t).drop k)
    | none => scanP2 f (isTermN c) t

/-- Matches of `/\b[A-Z][a-z]{rmin,}\b/g`: an uppercase letter at a word
boundary followed by at least `rmin` lowercase letters up to a word
boundary.  A shorter lowercase run cannot rescue a failed boundary (the next
char would be a lowercase letter), so the greedy run is exact. -/
def capWords (rmin : Nat) : Nat → Bool → List Nat → List (List Nat)
  | 0, _, _ => []
  | _, _, [] => []
  | f + 1, pw, c :: t =>
    if !pw && isUpperN c then
      let r := lowRunL t
      if decide (rmin ≤ r) && bAfter (t.drop r) then
        (c :: t.take r) :: capWords rmin f true (t.drop r)
      else capWords rmin f (isWordN c) t
    else capWords rmin f (isWordN c) t

/-- JSON values as produced by `JSON.parse`. -/
inductive JValue where
  | jstr (s : List Nat)
  | jnum (n : Int)
  | jbool (b : Bool)
  | jnull
  | jarr (xs : List JValue)
  | jobj (fields : List (List Nat × JValue))

/-- The structured output unit of the pipeline.  `questionText`, `topics`
and `keywords` are always strings in both paths; `subject`, `subSubject`
and `year` of LLM-origin records are copied from the parsed JSON and can be
arbitrary JSON values (`item.subject || "General"` keeps any truthy value). -/
structure QuestionRecord where
  questionText : List Nat
  subject : JValue
  subSubject : JValue
  topics : List (List Nat)
  keywords : List (List Nat)
  year : JValue

/-- The candidate filter of `extractQuestionsManually` (step 4): minimum
length 20 and the substring denylist `reg no` / `page` / `downloaded`,
case-insensitively. -/
def manualAccepts (q : List Nat) : Bool :=
  decide (20 ≤ q.length) &&
  !(containsSub (str ("reg no")) (q.map lc)) &&
  !(containsSub (str ("page")) (q.map lc)) &&
  !(containsSub (str ("downloaded")) (q.map lc))

/-- Decimal rendering of a Nat, as a code-point list. -/
def natStr (n : Nat) : List Nat := str (toString n)

/-- One record of the manual path: shared subject and year, `subSubject`
fixed to `General`, `topics` = `["Topic <qid>"]`, keywords = up to 5 unique
capitalized tokens of the question text. -/
def mkRecord (subj yr : List Nat) (qid : Nat) (q : List Nat) : QuestionRecord :=
  { questionText := q
    subject := JValue.jstr subj
    subSubject := JValue.jstr (str ("General"))
    topics := [str ("Topic ") ++ natStr qid]
    keywords := (dedupFirst (capWords 2 (q.length + 1) false q)).take 5
    year := JValue.jstr yr }

/-- The accumulation loop of `extractQuestionsManually`: trim each candidate
span, apply the filter, and number accepted questions consecutively. -/
def mkRecords (subj yr : List Nat) : Nat → List (List Nat) → List QuestionRecord
  | _, [] => []
  | qid, sp :: rest =>
    let q := trimL sp
    if manualAccepts q then mkRecord subj yr qid q :: mkRecords subj yr (qid + 1) rest
    else mkRecords subj yr qid rest

/-- All candidate spans, in pattern order then match order. -/
def manualSpans (text : List Nat) : List (List Nat) :=
  scanP1 (text.length + 1) text
    ++ scanP2 (text.length + 1) true text
    ++ scanP3 (text.length + 1) text

/-- `extractQuestionsManually` from `deepSeekService.ts`. -/
def extractQuestionsManually (text : List Nat) : List QuestionRecord :=
  let yr := match extractYearFromText text with
    | some y => if y.isEmpty then str ("Unknown") else y
    | none => str ("Unknown")
  mkRecords (determineSubject text) yr 1 (manualSpans text)

/-- JavaScript truthiness of a JSON value. -/
def truthy : JValue → Bool
  | .jstr s => !s.isEmpty
  | .jnum n => decide (n ≠ 0)
  | .jbool b => b
  | .jnull => false
  | .jarr _ => true
  | .jobj _ => true

/-- Property access on a parsed JSON value: an object's field (later
duplicate keys out of `JSON.parse` overwrite earlier ones), `undefined`
(`none`) otherwise. -/
def getField : JValue → List Nat → Option JValue
  | .jobj fs, name => ((fs.filter fun f => f.1 == name).getLast?).map Prod.snd
  | _, _ => none

/-- The post-filter of the LLM path of `analyzeQuestions` on a string
question text: minimum length 20, the denylist `reg.no` / `reg no` /
`registration` / `duration:` / `max. marks:` / `page`, and a digit
somewhere. -/
def llmAccepts (s : List Nat) : Bool :=
  decide (20 ≤ s.length) &&
  (let lt := s.map lc
   !(containsSub (str ("reg.no")) lt) && !(containsSub (str ("reg no")) lt) &&
   !(containsSub (str ("registration")) lt) &&
   !(containsSub (str ("duration:")) lt) &&
   !(containsSub (str ("max. marks:")) lt) &&
   !(containsSub (str ("page")) lt)) &&
  s.any isDigitN

/-- Outcome of the LLM-path filter callback on one parsed item: rejected,
accepted with its question text, or a thrown `TypeError` (a truthy
non-string `questionText` reaches `.toLowerCase()`; an array first passes
the `.length < 20` check on its element count). -/
inductive FilterStep where
  | reject
  | accept (s : List Nat)
  | throwEx

/-- The filter callback of `analyzeQuestions` on one item. -/
def filterStep (item : JValue) : FilterStep :=
  match getField item (str ("questionText")) with
  | none => .reject
  | some v =>
    if !truthy v then .reject
    else
      match v with
      | .jstr s => if llmAccepts s then .accept s else .reject
      | .jarr xs => if decide (xs.length < 20) then .reject else .throwEx
      | _ => .throwEx

/-- `xs` as a list of strings, `none` when some element is not a string
(then `standardizeTopics`'s `topic.toLowerCase()` throws). -/
def allStrings : List JValue → Option (List (List Nat))
  | [] => some []
  | .jstr s :: r => (allStrings r).map (s :: ·)
  | _ :: _ => none

/-- `standardizeTopics(item.topics || [])`: missing or falsy topics become
`[]`; a truthy non-array or an array with a non-string element throws. -/
def topicsOf (item : JValue) : Option (List (List Nat)) :=
  match getField item (str ("topics")) with
  | none => some []
  | some v =>
    if !truthy v then some []
    else
      match v with
      | .jarr xs => allStrings xs
      | _ => none

/-- `(item.keywords || []).filter(k => typeof k === 'string')`: missing or
falsy keywords become `[]`; a truthy non-array throws; non-string array
elements are dropped. -/
def keywordsOf (item : JValue) : Option (List (List Nat)) :=
  match getField item (str ("keywords")) with
  | none => some []
  | some v =>
    if !truthy v then some []
    else
      match v with
      | .jarr xs =>
        some (xs.filterMap fun x => match x with | .jstr s => some s | _ => none)
      | _ => none

/-- JavaScript `a || d` on a possibly missing JSON value. -/
def jsOrJ (o : Option JValue) (d : JValue) : JValue :=
  match o with
  | some v => if truthy v then v else d
  | none => d

/-- The map step of the LLM path on an accepted item with question text `s`;
`none` when normalizing topics or keywords throws. -/
def mapStep (xyear : Option (List Nat)) (item : JValue) (s : List Nat) :
    Option QuestionRecord :=
  match topicsOf item, keywordsOf item with
  | some tps, some kws =>
    some { questionText := s
           subject := jsOrJ (getField item (str ("subject"))) (JValue.jstr (str ("General")))
           subSubject := jsOrJ (getField item (str ("subSubject"))) (JValue.jstr (str ("General")))
           topics := standardizeTopics tps
           keywords := kws
           year := jsOrJ (xyear.map JValue.jstr)
                     (jsOrJ (getField item (str ("year"))) (JValue.jstr (str ("Unknown")))) }
  | _, _ => none

/-- `analysis.filter(...).map(...)` of the LLM path: `none` when any callback
throws (the exception is caught and triggers the manual fallback). -/
def processItems (xyear : Option (List Nat)) (items : List JValue) :
    Option (List QuestionRecord) :=
  if items.any fun it => match filterStep it with | .throwEx => true | _ => false then none
  else
    (items.filterMap fun it =>
        match filterStep it with | .accept s => some (it, s) | _ => none).mapM
      fun p => mapStep xyear p.1 p.2

/-- `analysisText.replace(/```json|```/g, '')`: a single left-to-right pass,
trying the longer alternative first at each position. -/
def stripFences : Nat → List Nat → List Nat
  | 0, _ => []
  | _, [] => []
  | f + 1, c :: t =>
    if hasPre (str ("```json")) (c :: t) then stripFences f ((c :: t).drop 7)
    else if hasPre (str ("```")) (c :: t) then stripFences f ((c :: t).drop 3)
    else c :: stripFences f t

/-- `analyzeQuestions` from `deepSeekService.ts`, given the raw text, the
LLM response content, and `JSON.parse` modelled as a function returning
`none` on a parse error.  Every failure path (unparsable content, a parsed
value that is not an array, or an exception while filtering/normalizing the
items) falls back to `extractQuestionsManually text`. -/
def analyzeQuestions (text : List Nat) (parse : List Nat → Option JValue)
    (content : List Nat) : List QuestionRecord :=
  let cleaned := trimL (stripFences (content.length + 1) content)
  match parse cleaned with
  | some (JValue.jarr items) =>
    match processItems (extractYearFromText text) items with
    | some recs => recs
    | none => extractQuestionsManually text
  | _ => extractQuestionsManually text

/-- `determineSubSubject` from the richer page variant: domain markers
checked in a fixed order for `Computer Science` / `System Software`, any
other main subject returned unchanged. -/
def determineSubSubject (questionText mainSubject : List Nat) : List Nat :=
  let lt := questionText.map lc
  if mainSubject == str ("Computer Science") || mainSubject == str ("System Software") then
    if containsSub (str ("assembler")) lt || containsSub (str ("assembly")) lt then
      str ("Assembly Language")
    else if containsSub (str ("compiler")) lt || containsSub (str ("parsing")) lt then
      str ("Compiler Design")
    else if containsSub (str ("loader")) lt || containsSub (str ("linking")) lt then
      str ("System Programming")
    else if containsSub (str ("macro")) lt || containsSub (str ("processor")) lt then
      str ("Macro Processors")
    else str ("System Software")
  else mainSubject

/-- The `Computer Science` term list of `extractTopicsFromQuestion`. -/
def technicalTermsCS : List (List Nat) :=
  [str ("algorithm"), str ("compiler"), str ("interpreter"), str ("assembler"),
   str ("loader"), str ("data structure"), str ("operating system"),
   str ("processor"), str ("memory"), str ("register"), str ("database"),
   str ("network"), str ("stack"), str ("queue"), str ("tree"), str ("graph"),
   str ("software"), str ("hardware"), str ("programming"), str ("system")]

/-- The `Mathematics` term list of `extractTopicsFromQuestion`. -/
def technicalTermsMath : List (List Nat) :=
  [str ("calculus"), str ("algebra"), str ("geometry"), str ("trigonometry"),
   str ("statistics"), str ("probability"), str ("theorem"), str ("proof"),
   str ("equation"), str ("function"), str ("derivative"), str ("integral"),
   str ("vector"), str ("matrix"), str ("set")]

/-- The `Physics` term list of `extractTopicsFromQuestion`. -/
def technicalTermsPhys : List (List Nat) :=
  [str ("mechanics"), str ("thermodynamics"), str ("optics"),
   str ("electromagnetism"), str ("quantum"), str ("relativity"),
   str ("force"), str ("energy"), str ("momentum"), str ("wave"),
   str ("particle")]

/-- `term.charAt(0).toUpperCase() + term.slice(1)`. -/
def capFirst : List Nat → List Nat
  | [] => []
  | c :: r => uc c :: r

/-- The term-scan loop of `extractTopicsFromQuestion`: insert the
capitalized term into the `Set` when it occurs in the lowercase question
text, stopping once the set holds 3 topics. -/
def addTermsCapped (acc : List (List Nat)) : List (List Nat) → List Nat → List (List Nat)
  | [], _ => acc
  | term :: rest, lq =>
    if 3 ≤ acc.length then acc
    else if containsSub term lq then
      addTermsCapped (if capFirst term ∈ acc then acc else acc ++ [capFirst term]) rest lq
    else addTermsCapped acc rest lq

/-- The excluded instruction verbs of the noun fallback. -/
def nounExcluded : List (List Nat) :=
  [str ("Explain"), str ("Write"), str ("Define"), str ("Discuss"),
   str ("Compare"), str ("List")]

/-- The noun-fallback loop of `extractTopicsFromQuestion`. -/
def addNounsCapped (acc : List (List Nat)) : List (List Nat) → List (List Nat)
  | [] => acc
  | noun :: rest =>
    if 3 ≤ acc.length then acc
    else if noun ∈ nounExcluded then addNounsCapped acc rest
    else addNounsCapped (if noun ∈ acc then acc else acc ++ [noun]) rest

/-- `extractTopicsFromQuestion` from the richer page variant: scan the three
term dictionaries in order collecting up to 3 title-cased matches; when none
match, fall back to capitalized tokens (`/\b[A-Z][a-z]{3,}\b/g`) not in the
verb denylist, again up to 3. -/
def extractTopicsFromQuestion (q : List Nat) : List (List Nat) :=
  let lq := q.map lc
  let t3 := addTermsCapped (addTermsCapped (addTermsCapped [] technicalTermsCS lq)
    technicalTermsMath lq) technicalTermsPhys lq
  if t3.isEmpty then addNounsCapped [] (capWords 3 (q.length + 1) false q) else t3

/-- Shape of a keyword token produced by `/\b[A-Z][a-z]{2,}\b/`: one
uppercase letter followed by at least two lowercase letters. -/
def isCapToken : List Nat → Bool
  | [] => false
  | c :: r => isUpperN c && decide (2 ≤ r.length) && r.all isLowerN

/-- Boolean no-duplicates check. -/
def nodupB : List (List Nat) → Bool
  | [] => true
  | x :: r => decide (x ∉ r) && nodupB r

/-- Well-formedness of a `QuestionRecord` per the data model: non-empty
question text, at most 3 topics, at most 5 keywords. -/
def wellFormedB (r : QuestionRecord) : Bool :=
  !r.questionText.isEmpty && decide (r.topics.length ≤ 3) &&
    decide (r.keywords.length ≤ 5)

/-- The keyword invariants of the manual path: every keyword is a
capitalized token, there are no duplicates, at most 5 of them, and the
all-uppercase `TCP` never occurs. -/
def keywordsOkB (r : QuestionRecord) : Bool :=
  r.keywords.all isCapToken && nodupB r.keywords &&
    decide (r.keywords.length ≤ 5) && decide (str ("TCP") ∉ r.keywords)

/-- Topic/keyword "ordered set" bounds of one record. -/
def boundsOkB (r : QuestionRecord) : Bool :=
  decide (r.topics.length ≤ 3) && nodupB r.topics &&
    decide (r.keywords.length ≤ 5) && nodupB r.keywords

/-- Highest score in a score table. -/
def maxScoreL (l : List (List Nat × Nat)) : Nat :=
  l.foldr (fun p m => max p.2 m) 0

/-- The specification's description of subject selection: the first subject
in table order attaining the highest score, `General` when every score is
zero. -/
def specSubjectChoice (l : List (List Nat × Nat)) : List Nat :=
  if maxScoreL l = 0 then str ("General")
  else ((l.find? fun p => decide (maxScoreL l ≤ p.2)).map Prod.fst).getD (str ("General"))

/-- An LLM item whose topics and keywords exceed the documented bounds. -/
def overfullItem : JValue :=
  JValue.jobj
    [(str ("questionText"), JValue.jstr (str ("1. Explain the concept of operating systems."))),
     (str ("topics"),
      JValue.jarr [JValue.jstr (str ("Gravity")), JValue.jstr (str ("Energy")),
        JValue.jstr (str ("Momentum")), JValue.jstr (str ("Optics"))]),
     (str ("keywords"),
      JValue.jarr [JValue.jstr (str ("Alpha")), JValue.jstr (str ("Beta")),
        JValue.jstr (str ("Gamma")), JValue.jstr (str ("Delta")),
        JValue.jstr (str ("Epsilon")), JValue.jstr (str ("Zeta"))])]

/-! Theorems.  Claim theorems and their supporting lemmas. -/

/-- Membership in the deduplication accumulator loop. -/
theorem mem_dedupAux (x : List Nat) :
    ∀ (l seen : List (List Nat)), x ∈ dedupAux seen l ↔ x ∈ l ∧ x ∉ seen
  | [], seen => by simp [dedupAux]
  | y :: r, seen => by
    simp only [dedupAux]
    split <;> rename_i hy <;>
      simp only [List.mem_cons, mem_dedupAux x r] <;>
      by_cases hxy : x = y
    all_goals first | (subst hxy; tauto) | tauto

/-- The deduplication loop yields a list without duplicates. -/
theorem nodup_dedupAux : ∀ (l seen : List (List Nat)), (dedupAux seen l).Nodup
  | [], _ => by simp [dedupAux]
  | y :: r, seen => by
    simp only [dedupAux]
    split
    · exact nodup_dedupAux r seen
    · refine List.nodup_cons.mpr ⟨fun hmem => ?_, nodup_dedupAux r (y :: seen)⟩
      exact ((mem_dedupAux y r (y :: seen)).mp hmem).2 (List.mem_cons_self y seen)

/-- Membership in `dedupFirst`. -/
theorem mem_dedupFirst (x : List Nat) (l : List (List Nat)) :
    x ∈ dedupFirst l ↔ x ∈ l := by
  simp [dedupFirst, mem_dedupAux]

/-- `dedupFirst` yields a list without duplicates. -/
theorem nodup_dedupFirst (l : List (List Nat)) : (dedupFirst l).Nodup :=
  nodup_dedupAux l []

/-- A duplicate-free list avoiding the accumulator is left unchanged. -/
theorem dedupAux_eq_self :
    ∀ (l seen : List (List Nat)), l.Nodup → (∀ x ∈ l, x ∉ seen) →
      dedupAux seen l = l
  | [], _, _, _ => rfl
  | y :: r, seen, hnd, hs => by
    simp only [dedupAux]
    rw [if_neg (hs y (List.mem_cons_self y r))]
    congr 1
    refine dedupAux_eq_self r (y :: seen) (List.nodup_cons.mp hnd).2 fun x hx => ?_
    intro hmem
    rcases List.mem_cons.mp hmem with rfl | h
    · exact (List.nodup_cons.mp hnd).1 hx
    · exact hs x (List.mem_cons_of_mem y hx) h

/-- `dedupFirst` is idempotent. -/
theorem dedupFirst_idem (l : List (List Nat)) :
    dedupFirst (dedupFirst l) = dedupFirst l :=
  dedupAux_eq_self (dedupFirst l) [] (nodup_dedupFirst l) (by simp)

/-- `nodupB` decides `List.Nodup`. -/
theorem nodupB_iff : ∀ l : List (List Nat), nodupB l = true ↔ l.Nodup
  | [] => by simp [nodupB]
  | x :: r => by
    simp [nodupB, nodupB_iff r, List.nodup_cons]

/-- The lowercase run never exceeds the text length. -/
theorem lowRunL_le : ∀ t : List Nat, lowRunL t ≤ t.length
  | [] => Nat.le_refl 0
  | c :: t => by
    simp only [lowRunL]
    split
    · exact Nat.succ_le_succ (lowRunL_le t)
    · exact Nat.zero_le _

/-- The chars inside the lowercase run are lowercase letters. -/
theorem take_lowRunL_all : ∀ t : List Nat, (t.take (lowRunL t)).all isLowerN = true
  | [] => rfl
  | c :: t => by
    simp only [lowRunL]
    split
    · rename_i hc
      simp [List.all_cons, hc, take_lowRunL_all t]
    · rfl

/-- Every token emitted by the capitalized-word scan with a minimum run of 2
is a capitalized token. -/
theorem capWords_capToken :
    ∀ (f : Nat) (pw : Bool) (s w : List Nat), w ∈ capWords 2 f pw s →
      isCapToken w = true
  | 0, _, _, _ => by simp [capWords]
  | f + 1, pw, [], _ => by simp [capWords]
  | f + 1, pw, c :: t, w => by
    simp only [capWords]
    split
    · split
      · rename_i hcond hrb
        intro hmem
        rcases List.mem_cons.mp hmem with rfl | h
        · have hup : isUpperN c = true := by
            simp only [Bool.and_eq_true] at hcond
            exact hcond.2
          have hr2 : 2 ≤ lowRunL t := by
            simp only [Bool.and_eq_true, decide_eq_true_eq] at hrb
            exact hrb.1
          have hlen : (t.take (lowRunL t)).length = lowRunL t := by
            rw [List.length_take]
            exact Nat.min_eq_left (lowRunL_le t)
          simp only [isCapToken, hup, Bool.true_and, Bool.and_eq_true]
          refine ⟨decide_eq_true ?_, take_lowRunL_all t⟩
          rw [hlen]
          exact hr2
        · exact capWords_capToken f true (t.drop (lowRunL t)) w h
      · exact capWords_capToken f (isWordN c) t w
    · exact capWords_capToken f (isWordN c) t w

/-- The keyword list of a manual-path record: all capitalized tokens, no
duplicates, at most five, and never the all-uppercase `TCP`. -/
theorem mkRecord_keywords_ok (subj yr : List Nat) (qid : Nat) (q : List Nat) :
    keywordsOkB (mkRecord subj yr qid q) = true := by
  have hmem : ∀ w ∈ (mkRecord subj yr qid q).keywords, isCapToken w = true := by
    intro w hw
    have h1 : w ∈ dedupFirst (capWords 2 (q.length + 1) false q) :=
      List.mem_of_mem_take hw
    exact capWords_capToken _ _ _ w ((mem_dedupFirst _ _).mp h1)
  have hnd : (mkRecord subj yr qid q).keywords.Nodup :=
    (nodup_dedupFirst _).sublist (List.take_sublist _ _)
  have hlen : (mkRecord subj yr qid q).keywords.length ≤ 5 := by
    simp only [mkRecord, List.length_take]
    exact Nat.min_le_left 5 _
  have htcp : str ("TCP") ∉ (mkRecord subj yr qid q).keywords := by
    intro hin
    have := hmem _ hin
    exact absurd this (by decide)
  simp only [keywordsOkB, Bool.and_eq_true, List.all_eq_true]
  exact ⟨⟨⟨hmem, (nodupB_iff _).mpr hnd⟩, decide_eq_true hlen⟩, decide_eq_true htcp⟩

/-- Every record of the manual accumulation loop satisfies the data-model
invariants: non-empty text, topic/keyword bounds, duplicate-free ordered
keyword sets. -/
theorem mkRecords_invariants :
    ∀ (spans : List (List Nat)) (subj yr : List Nat) (qid : Nat),
      (mkRecords subj yr qid spans).all
        (fun r => wellFormedB r && keywordsOkB r && boundsOkB r) = true
  | [], _, _, _ => rfl
  | sp :: rest, subj, yr, qid => by
    simp only [mkRecords]
    split
    · rename_i hacc
      have hlen : 20 ≤ (trimL sp).length := by
        simp only [manualAccepts, Bool.and_eq_true, decide_eq_true_eq] at hacc
        exact hacc.1.1.1
      have hwf : wellFormedB (mkRecord subj yr qid (trimL sp)) = true := by
        have hne : (trimL sp).isEmpty = false := by
          cases h : trimL sp with
          | nil => rw [h] at hlen; simp at hlen
          | cons a l => rfl
        simp [wellFormedB, mkRecord, hne, Nat.min_le_left]
      have hkw := mkRecord_keywords_ok subj yr qid (trimL sp)
      have hb : boundsOkB (mkRecord subj yr qid (trimL sp)) = true := by
        have hnd : (mkRecord subj yr qid (trimL sp)).keywords.Nodup :=
          (nodup_dedupFirst _).sublist (List.take_sublist _ _)
        simp only [mkRecord] at hnd
        simp [boundsOkB, mkRecord, nodupB, nodupB_iff, Nat.min_le_left, hnd]
      simp only [List.all_cons, hwf, hkw, hb, Bool.and_self, Bool.true_and]
      exact mkRecords_invariants rest subj yr (qid + 1)
    · exact mkRecords_invariants rest subj yr qid

/-- All record invariants hold on every output of the manual extractor. -/
theorem manual_all_invariants (text : List Nat) :
    (extractQuestionsManually text).all
      (fun r => wellFormedB r && keywordsOkB r && boundsOkB r) = true := by
  unfold extractQuestionsManually
  exact mkRecords_invariants _ _ _ _

/-- The term-collection loop never grows the topic set beyond 3. -/
theorem addTermsCapped_len :
    ∀ (terms : List (List Nat)) (acc : List (List Nat)) (lq : List Nat),
      acc.length ≤ 3 → (addTermsCapped acc terms lq).length ≤ 3
  | [], _, _, h => h
  | term :: rest, acc, lq, h => by
    simp only [addTermsCapped]
    split
    · exact h
    · rename_i hlt
      split
      · refine addTermsCapped_len rest _ lq ?_
        split
        · exact h
        · simp only [List.length_append, List.length_cons, List.length_nil]
          omega
      · exact addTermsCapped_len rest acc lq h

/-- The noun-fallback loop never grows the topic set beyond 3. -/
theorem addNounsCapped_len :
    ∀ (nouns : List (List Nat)) (acc : List (List Nat)),
      acc.length ≤ 3 → (addNounsCapped acc nouns).length ≤ 3
  | [], _, h => h
  | noun :: rest, acc, h => by
    simp only [addNounsCapped]
    split
    · exact h
    · rename_i hlt
      split
      · exact addNounsCapped_len rest acc h
      · refine addNounsCapped_len rest _ ?_
        split
        · exact h
        · simp only [List.length_append, List.length_cons, List.length_nil]
          omega

/-- C2: `extractQuestionsManually` is total — it is a plain function defined
for every string, including the empty string — and always returns a list of
well-formed records; a document with no pattern matches (the empty string)
and a pure-noise document removed by the denylist filter both yield the
empty list rather than an error. -/
theorem manual_extraction_total_wellformed :
    (∀ text : List Nat, (extractQuestionsManually text).all wellFormedB = true)
    ∧ extractQuestionsManually (str ("")) = []
    ∧ extractQuestionsManually (str ("1. Reg No 123456789012 Page 2")) = [] := by
  refine ⟨fun text => ?_, rfl, rfl⟩
  have h := manual_all_invariants text
  rw [List.all_eq_true] at h ⊢
  intro r hr
  have hh := h r hr
  simp only [Bool.and_eq_true] at hh
  exact hh.1.1

/-- C10: every keyword of every record returned by `extractQuestionsManually`
matches `\b[A-Z][a-z]{2,}\b` (one uppercase letter then at least two
lowercase letters), the keyword list is duplicate-free in first-occurrence
order with at most 5 entries, and in particular the all-uppercase `TCP`
never appears among the keywords. -/
theorem manual_keywords_shape (text : List Nat) :
    (extractQuestionsManually text).all keywordsOkB = true := by
  have h := manual_all_invariants text
  rw [List.all_eq_true] at h ⊢
  intro r hr
  have hh := h r hr
  simp only [Bool.and_eq_true] at hh
  exact hh.1.2

/-- C4 (amended): every record returned by the manual-extraction fallback
has at most 3 topics and at most 5 keywords, each duplicate-free in
first-occurrence order, and the richer variant's per-question topic
heuristic also returns at most 3 topics; the LLM path, by contrast, does
not cap topics at 3 or keywords at 5 (see the counterexample). -/
theorem manual_records_bounds :
    (∀ text : List Nat, (extractQuestionsManually text).all boundsOkB = true)
    ∧ ∀ q : List Nat, (extractTopicsFromQuestion q).length ≤ 3 := by
  constructor
  · intro text
    have h := manual_all_invariants text
    rw [List.all_eq_true] at h ⊢
    intro r hr
    have hh := h r hr
    simp only [Bool.and_eq_true] at hh
    exact hh.2
  · intro q
    unfold extractTopicsFromQuestion
    dsimp only
    split
    · exact addNounsCapped_len _ _ (by simp)
    · exact addTermsCapped_len _ _ _
        (addTermsCapped_len _ _ _
          (addTermsCapped_len _ _ _ (by simp)))

/-- C1: whenever the (fence-stripped, trimmed) LLM response content fails to
parse as JSON or parses to a value that is not an array, `analyzeQuestions`
returns exactly the list `extractQuestionsManually` produces for the raw
input text; no record derived from the LLM response appears, and the
function is total (never raises) for such input. -/
theorem analyzeQuestions_fallback_eq_manual (text content : List Nat)
    (parse : List Nat → Option JValue)
    (h : ∀ items, parse (trimL (stripFences (content.length + 1) content)) ≠
      some (JValue.jarr items)) :
    analyzeQuestions text parse content = extractQuestionsManually text := by
  cases hp : parse (trimL (stripFences (content.length + 1) content)) with
  | none => simp only [analyzeQuestions, hp]
  | some v =>
    cases v with
    | jarr items => exact absurd hp (h items)
    | jstr s => simp only [analyzeQuestions, hp]
    | jnum n => simp only [analyzeQuestions, hp]
    | jbool b => simp only [analyzeQuestions, hp]
    | jnull => simp only [analyzeQuestions, hp]
    | jobj fs => simp only [analyzeQuestions, hp]

/-- Witness for C1 at a parse failure on concrete input. -/
theorem analyzeQuestions_fallback_eq_manual_witness :
    analyzeQuestions (str ("")) (fun _ => none) (str ("garbage output")) =
      extractQuestionsManually (str ("")) :=
  analyzeQuestions_fallback_eq_manual _ _ _ (fun _ h => by exact absurd h (by simp))

/-- C3 counterexample: the code does not return the full range for a text
containing only `2021-22`; the bare-year pattern is tried first and its
trailing `\b` matches at the hyphen, so the result is `2021`. -/
theorem extractYear_range_cex :
    extractYearFromText (str ("2021-22")) ≠ some (str ("2021-22")) := by decide

/-- C3 (amended): `extractYearFromText` is deterministic and idempotent;
a text whose only year-like substring is `2021-22` yields `"2021"` (not the
full range, because the bare-year pattern is tried first); a text whose
only year-like substring is `2020 Scheme` yields `"2020"`; and whenever no
year pattern matches anywhere, the result is `null`. -/
theorem extractYear_amended :
    (∀ t : List Nat, extractYearFromText t = extractYearFromText t)
    ∧ extractYearFromText (str ("2021-22")) = some (str ("2021"))
    ∧ extractYearFromText (str ("2020 Scheme")) = some (str ("2020"))
    ∧ ∀ t : List Nat,
        (yearScanners.all fun f => (scanFirst f false t).isNone) = true →
        extractYearFromText t = none := by
  refine ⟨fun _ => rfl, by decide, by decide, fun t h => ?_⟩
  unfold extractYearFromText
  have hn : yearScanners.findSome? (fun f => scanFirst f false t) = none := by
    rw [List.findSome?_eq_none_iff]
    intro f hf
    exact Option.isNone_iff_eq_none.mp (List.all_eq_true.mp h f hf)
  rw [hn]
  rfl

/-- Witness for C3's no-match conjunct on a concrete year-free text. -/
theorem extractYear_amended_witness :
    extractYearFromText (str ("no digits at all")) = none :=
  extractYear_amended.2.2.2 _ (by decide)

/-- C5 counterexample: a candidate containing `downloaded` is accepted by
the LLM-path filter but rejected by the manual-path filter, so the two
filters are not equivalent. -/
theorem llm_manual_filter_cex :
    llmAccepts (str ("1. This content was downloaded from the site.")) = true
    ∧ manualAccepts (str ("1. This content was downloaded from the site.")) = false := by
  exact ⟨by decide, by decide⟩

/-- C5 (amended): both filters use minimum length 20 and share the `reg no`
and `page` denylist entries, but the denylists differ (`registration`,
`reg.no`, `duration:`, `max. marks:` and a required digit only on the LLM
side; `downloaded` only on the manual side); the filters agree on every
candidate containing a digit and none of the differing substrings. -/
theorem llm_manual_filter_amended (s : List Nat)
    (h1 : s.any isDigitN = true)
    (h2 : containsSub (str ("reg.no")) (s.map lc) = false)
    (h3 : containsSub (str ("registration")) (s.map lc) = false)
    (h4 : containsSub (str ("duration:")) (s.map lc) = false)
    (h5 : containsSub (str ("max. marks:")) (s.map lc) = false)
    (h6 : containsSub (str ("downloaded")) (s.map lc) = false) :
    llmAccepts s = manualAccepts s := by
  simp [llmAccepts, manualAccepts, h1, h2, h3, h4, h5, h6, Bool.and_assoc]

/-- Witness for C5's agreement conjunct on a concrete candidate. -/
theorem llm_manual_filter_amended_witness :
    llmAccepts (str ("1. Explain the concept of operating systems.")) =
      manualAccepts (str ("1. Explain the concept of operating systems.")) :=
  llm_manual_filter_amended _ (by decide) (by decide) (by decide) (by decide)
    (by decide) (by decide)

/-- C8: on a concrete input both the numbered-dot pattern and the
`Question`-labeled pattern match the single physical question, and the
output contains it twice — the first returned text is a substring of the
second (overlapping spans), so no cross-pattern deduplication happens. -/
theorem manual_extraction_duplicates :
    ((extractQuestionsManually
          (str ("Question 1. Explain the concept of compilers in detail."))).map
        fun r => r.questionText)
      = [str ("1. Explain the concept of compilers in detail."),
         str ("Question 1. Explain the concept of compilers in detail.")]
    ∧ containsSub (str ("1. Explain the concept of compilers in detail."))
        (str ("Question 1. Explain the concept of compilers in detail.")) = true := by
  exact ⟨by decide, by decide⟩

/-- C9: `determineSubSubject` checks its markers in a fixed order for
`Computer Science` / `System Software` (so a text containing `assembler`
yields `Assembly Language` regardless of later markers), matches by
substring (so `microprocessor` triggers the `processor` marker and yields
`Macro Processors`), and returns any other main subject unchanged. -/
theorem determineSubSubject_order :
    (∀ q main : List Nat, main ≠ str ("Computer Science") →
      main ≠ str ("System Software") → determineSubSubject q main = main)
    ∧ (∀ q : List Nat, containsSub (str ("assembler")) (q.map lc) = true →
      determineSubSubject q (str ("Computer Science")) = str ("Assembly Language"))
    ∧ determineSubSubject (str ("5. Working of a microprocessor"))
        (str ("Computer Science")) = str ("Macro Processors") := by
  refine ⟨fun q main h1 h2 => ?_, fun q h => ?_, by decide⟩
  · unfold determineSubSubject
    have e1 : (main == str ("Computer Science")) = false := beq_eq_false_iff_ne.mpr h1
    have e2 : (main == str ("System Software")) = false := beq_eq_false_iff_ne.mpr h2
    simp [e1, e2]
  · unfold determineSubSubject
    simp [h]

/-- Witness for C9's unchanged-subject conjunct. -/
theorem determineSubSubject_order_witness :
    determineSubSubject (str ("anything at all")) (str ("Physics")) = str ("Physics") :=
  determineSubSubject_order.1 _ _ (by decide) (by decide)

/-- C4 counterexample: an LLM-origin item with six string keywords and four
admissible topics yields a returned record with 6 keywords and 4 topics —
the LLM path caps neither at 5 nor at 3. -/
theorem llm_records_exceed_bounds :
    ((analyzeQuestions (str (""))
          (fun _ => some (JValue.jarr [overfullItem])) (str ("x"))).map
        fun r => (r.topics.length, r.keywords.length)) = [(4, 6)] := by decide

/-- Unfolding of the maximal score on a cons cell. -/
theorem maxScoreL_cons (p : List Nat × Nat) (l : List (List Nat × Nat)) :
    maxScoreL (p :: l) = max p.2 (maxScoreL l) := rfl

/-- A positive maximal score is attained by some entry. -/
theorem maxScoreL_attained :
    ∀ l : List (List Nat × Nat), 0 < maxScoreL l → ∃ p ∈ l, maxScoreL l ≤ p.2
  | [] => by simp [maxScoreL]
  | p :: r => by
    intro h
    rw [maxScoreL_cons] at h ⊢
    by_cases hc : maxScoreL r ≤ p.2
    · exact ⟨p, List.mem_cons_self p r, by omega⟩
    · obtain ⟨q, hq, hle⟩ := maxScoreL_attained r (by omega)
      exact ⟨q, List.mem_cons_of_mem p hq, by omega⟩

/-- The strict-improvement selection loop selects the first entry attaining
the maximal score, provided that score beats the accumulator; otherwise it
keeps the accumulator. -/
theorem pickBest_eq :
    ∀ (l : List (List Nat × Nat)) (acc : List Nat × Nat),
      pickBest acc l =
        if maxScoreL l ≤ acc.2 then acc
        else (l.find? fun p => decide (maxScoreL l ≤ p.2)).getD acc
  | [], acc => by simp [pickBest, maxScoreL]
  | p :: r, acc => by
    simp only [pickBest]
    rw [pickBest_eq r, maxScoreL_cons]
    by_cases h1 : acc.2 < p.2
    · rw [if_pos h1]
      by_cases h2 : maxScoreL r ≤ p.2
      · rw [if_pos h2, if_neg (by omega)]
        rw [List.find?_cons_of_pos _ (by simp only [decide_eq_true_eq]; omega)]
        rfl
      · rw [if_neg h2, if_neg (by omega)]
        have hM : max p.2 (maxScoreL r) = maxScoreL r := by omega
        rw [hM, List.find?_cons_of_neg _ (by simp only [decide_eq_true_eq]; omega)]
        obtain ⟨q, hq, hle⟩ := maxScoreL_attained r (by omega)
        have hs : (r.find? fun x => decide (maxScoreL r ≤ x.2)).isSome :=
          List.find?_isSome.mpr ⟨q, hq, by simp [hle]⟩
        obtain ⟨v, hv⟩ := Option.isSome_iff_exists.mp hs
        rw [hv]
        rfl
    · rw [if_neg h1]
      by_cases h3 : maxScoreL r ≤ acc.2
      · rw [if_pos h3, if_pos (by omega)]
      · rw [if_neg h3, if_neg (by omega)]
        have hM : max p.2 (maxScoreL r) = maxScoreL r := by omega
        rw [hM, List.find?_cons_of_neg _ (by simp only [decide_eq_true_eq]; omega)]

/-- C6: `determineSubject` scores the eight fixed subjects by whole-word
case-insensitive keyword counts and returns the first subject in table
order attaining the highest score (so ties resolve to the earlier subject),
and `General` when every score is zero. -/
theorem determineSubject_first_max (text : List Nat) :
    determineSubject text = specSubjectChoice (subjectScores text) := by
  unfold determineSubject specSubjectChoice
  rw [pickBest_eq]
  by_cases h : maxScoreL (subjectScores text) = 0
  · rw [if_pos h, if_pos (by omega)]
  · have hne : ¬ maxScoreL (subjectScores text) ≤
        ((str ("General"), 0) : List Nat × Nat).2 := by
      show ¬ maxScoreL (subjectScores text) ≤ 0
      omega
    rw [if_neg hne, if_neg h]
    obtain ⟨q, hq, hle⟩ := maxScoreL_attained (subjectScores text) (by omega)
    have hs : ((subjectScores text).find? fun x =>
        decide (maxScoreL (subjectScores text) ≤ x.2)).isSome :=
      List.find?_isSome.mpr ⟨q, hq, by simp [hle]⟩
    obtain ⟨v, hv⟩ := Option.isSome_iff_exists.mp hs
    rw [hv]
    rfl

/-- Lowercasing is idempotent. -/
theorem lc_lc (n : Nat) : lc (lc n) = lc n := by
  unfold lc
  split <;> rename_i h
  · rw [if_neg (by omega)]
  · rfl

/-- Uppercasing is idempotent. -/
theorem uc_uc (n : Nat) : uc (uc n) = uc n := by
  unfold uc
  split <;> rename_i h
  · rw [if_neg (by omega)]
  · rfl

/-- Lowercasing after uppercasing equals lowercasing. -/
theorem lc_uc (n : Nat) : lc (uc n) = lc n := by
  unfold uc lc
  split <;> rename_i h
  · rw [if_pos (by omega), if_neg (by omega)]
    omega
  · rfl

/-- Uppercasing maps only the space character to a space. -/
theorem uc_eq_32 (n : Nat) : uc n = 32 ↔ n = 32 := by
  unfold uc
  split <;> omega

/-- Lowercasing maps only the space character to a space. -/
theorem lc_eq_32 (n : Nat) : lc n = 32 ↔ n = 32 := by
  unfold lc
  split <;> omega

/-- `splitSp` never returns an empty word list. -/
theorem splitSp_ne_nil : ∀ t : List Nat, splitSp t ≠ []
  | [] => by simp [splitSp]
  | c :: t => by
    simp only [splitSp]
    split
    · exact List.cons_ne_nil _ _
    · cases h : splitSp t with
      | nil => exact List.cons_ne_nil _ _
      | cons w ws => exact List.cons_ne_nil _ _

/-- Words produced by `splitSp` contain no space. -/
theorem splitSp_no_space : ∀ (t w : List Nat), w ∈ splitSp t → 32 ∉ w
  | [], w => by
    intro hw
    simp only [splitSp, List.mem_cons, List.not_mem_nil, or_false] at hw
    simp [hw]
  | c :: t, w => by
    simp only [splitSp]
    split
    · rename_i hc
      intro hw
      rcases List.mem_cons.mp hw with rfl | h
      · simp
      · exact splitSp_no_space t w h
    · rename_i hc
      have hcne : c ≠ 32 := by simpa using hc
      cases hsp : splitSp t with
      | nil => exact absurd hsp (splitSp_ne_nil t)
      | cons v vs =>
        intro hw
        rcases List.mem_cons.mp hw with rfl | h
        · have hv : 32 ∉ v :=
            splitSp_no_space t v (by rw [hsp]; exact List.mem_cons_self _ _)
          simp only [List.mem_cons]
          rintro (h32 | h32)
          · exact hcne h32.symm
          · exact hv h32
        · exact splitSp_no_space t w (by rw [hsp]; exact List.mem_cons_of_mem _ h)

/-- Head-cons commutes with `joinSp`. -/
theorem joinSp_cons_head (c : Nat) (v : List Nat) :
    ∀ vs : List (List Nat), joinSp ((c :: v) :: vs) = c :: joinSp (v :: vs)
  | [] => rfl
  | _ :: _ => rfl

/-- `joinSp` on a two-or-more word list. -/
theorem joinSp_cons_cons (w v : List Nat) (vs : List (List Nat)) :
    joinSp (w :: v :: vs) = w ++ 32 :: joinSp (v :: vs) := rfl

/-- Joining the split of a text restores the text. -/
theorem joinSp_splitSp : ∀ t : List Nat, joinSp (splitSp t) = t
  | [] => rfl
  | c :: t => by
    simp only [splitSp]
    split
    · rename_i hc
      have hceq : c = 32 := by simpa using hc
      cases hsp : splitSp t with
      | nil => exact absurd hsp (splitSp_ne_nil t)
      | cons v vs =>
        rw [joinSp_cons_cons [] v vs, ← hsp, joinSp_splitSp t, hceq]
        rfl
    · cases hsp : splitSp t with
      | nil => exact absurd hsp (splitSp_ne_nil t)
      | cons v vs =>
        rw [joinSp_cons_head, ← hsp, joinSp_splitSp t]

/-- A space-free text splits into itself. -/
theorem splitSp_of_no_space : ∀ w : List Nat, 32 ∉ w → splitSp w = [w]
  | [] => fun _ => rfl
  | c :: w => by
    intro h
    have hc : c ≠ 32 := fun hc => h (hc ▸ List.mem_cons_self c w)
    have hw : 32 ∉ w := fun hm => h (List.mem_cons_of_mem c hm)
    simp only [splitSp]
    rw [if_neg (by simpa using hc), splitSp_of_no_space w hw]

/-- Splitting after appending a separator in front of a rest. -/
theorem splitSp_append_sep :
    ∀ (w rest : List Nat), 32 ∉ w → splitSp (w ++ 32 :: rest) = w :: splitSp rest
  | [], rest => by
    intro
    simp [splitSp]
  | c :: w, rest => by
    intro h
    have hc : c ≠ 32 := fun hc => h (hc ▸ List.mem_cons_self c w)
    have hw : 32 ∉ w := fun hm => h (List.mem_cons_of_mem c hm)
    simp only [List.cons_append, splitSp, List.append_eq]
    rw [if_neg (by simpa using hc), splitSp_append_sep w rest hw]

/-- Splitting the join of space-free words restores the words. -/
theorem splitSp_joinSp :
    ∀ ws : List (List Nat), ws ≠ [] → (∀ w ∈ ws, 32 ∉ w) →
      splitSp (joinSp ws) = ws
  | [], h, _ => absurd rfl h
  | [w], _, hs => by
    simp only [joinSp]
    exact splitSp_of_no_space w (hs w (List.mem_cons_self w []))
  | w :: v :: vs, _, hs => by
    rw [joinSp_cons_cons]
    rw [splitSp_append_sep _ _ (hs w (List.mem_cons_self _ _))]
    rw [splitSp_joinSp (v :: vs) (List.cons_ne_nil v vs)
      (fun u hu => hs u (List.mem_cons_of_mem w hu))]

/-- Title-casing one word is idempotent. -/
theorem tcWord_tcWord : ∀ w : List Nat, tcWord (tcWord w) = tcWord w
  | [] => rfl
  | c :: r => by
    have hmap : ∀ m : List Nat, (m.map lc).map lc = m.map lc := fun m => by
      rw [List.map_map]
      exact List.map_congr_left fun a _ => lc_lc a
    simp [tcWord, uc_uc, hmap]

/-- Lowercasing a title-cased word equals lowercasing the word. -/
theorem map_lc_tcWord : ∀ w : List Nat, (tcWord w).map lc = w.map lc
  | [] => rfl
  | c :: r => by
    have hmap : (r.map lc).map lc = r.map lc := by
      rw [List.map_map]
      exact List.map_congr_left fun a _ => lc_lc a
    simp [tcWord, lc_uc, hmap]

/-- Title-casing keeps a word space-free. -/
theorem tcWord_no_space : ∀ w : List Nat, 32 ∉ w → 32 ∉ tcWord w
  | [] => fun _ h => (List.not_mem_nil 32) h
  | c :: r => by
    intro h hmem
    simp only [tcWord, List.mem_cons] at hmem
    rcases hmem with h32 | h32
    · exact h (((uc_eq_32 c).mp h32.symm) ▸ List.mem_cons_self c r)
    · obtain ⟨a, ha, hae⟩ := List.mem_map.mp h32
      exact h (((lc_eq_32 a).mp hae) ▸ List.mem_cons_of_mem c ha)

/-- Lowercasing commutes with `joinSp`. -/
theorem map_lc_joinSp :
    ∀ ws : List (List Nat), (joinSp ws).map lc = joinSp (ws.map (List.map lc))
  | [] => rfl
  | [w] => rfl
  | w :: v :: vs => by
    rw [joinSp_cons_cons, List.map_append]
    have : (32 :: joinSp (v :: vs)).map lc = 32 :: (joinSp (v :: vs)).map lc := rfl
    rw [this, map_lc_joinSp (v :: vs)]
    rfl

/-- Lowercasing a title-cased topic equals lowercasing the topic. -/
theorem map_lc_tcTopic (t : List Nat) : (tcTopic t).map lc = t.map lc := by
  unfold tcTopic
  rw [map_lc_joinSp, List.map_map]
  have h1 : (splitSp t).map (List.map lc ∘ tcWord) = (splitSp t).map (List.map lc) :=
    List.map_congr_left fun w _ => map_lc_tcWord w
  rw [h1, ← map_lc_joinSp, joinSp_splitSp]

/-- Title-casing a topic is idempotent. -/
theorem tcTopic_tcTopic (t : List Nat) : tcTopic (tcTopic t) = tcTopic t := by
  unfold tcTopic
  have hsplit : splitSp (joinSp ((splitSp t).map tcWord)) = (splitSp t).map tcWord := by
    refine splitSp_joinSp _ ?_ ?_
    · intro h
      exact splitSp_ne_nil t (List.map_eq_nil_iff.mp h)
    · intro w hw
      obtain ⟨v, hv, rfl⟩ := List.mem_map.mp hw
      exact tcWord_no_space v (splitSp_no_space t v hv)
  rw [hsplit, List.map_map]
  congr 1
  exact List.map_congr_left fun w _ => tcWord_tcWord w

/-- The topic filter does not distinguish a topic from its title-cased form. -/
theorem topicKept_tcTopic (t : List Nat) : topicKept (tcTopic t) = topicKept t := by
  simp only [topicKept, map_lc_tcTopic]

/-- Applying `standardizeTopics` twice only deduplicates the first result. -/
theorem standardizeTopics_double (l : List (List Nat)) :
    standardizeTopics (standardizeTopics l) = dedupFirst (standardizeTopics l) := by
  conv_lhs => rw [standardizeTopics]
  have hfil : (standardizeTopics l).filter topicKept = standardizeTopics l := by
    rw [List.filter_eq_self]
    intro x hx
    obtain ⟨w, hw, rfl⟩ := List.mem_map.mp hx
    have hkept : topicKept w = true :=
      List.of_mem_filter ((mem_dedupFirst w _).mp hw)
    rw [topicKept_tcTopic]
    exact hkept
  rw [hfil]
  have hfix : ∀ y ∈ dedupFirst (standardizeTopics l), tcTopic y = y := by
    intro y hy
    have : y ∈ standardizeTopics l := (mem_dedupFirst y _).mp hy
    obtain ⟨w, hw, rfl⟩ := List.mem_map.mp this
    exact tcTopic_tcTopic w
  calc (dedupFirst (standardizeTopics l)).map tcTopic
      = (dedupFirst (standardizeTopics l)).map id := List.map_congr_left fun y hy => hfix y hy
    _ = dedupFirst (standardizeTopics l) := List.map_id _

/-- C7 counterexample: `standardizeTopics` is not idempotent — title-casing
merges the case variants `energy` and `Energy` only after the `Set`
deduplication, so the output `["Energy", "Energy"]` still contains a
duplicate and a second application changes it. -/
theorem standardizeTopics_not_idem :
    standardizeTopics (standardizeTopics [str ("energy"), str ("Energy")]) ≠
      standardizeTopics [str ("energy"), str ("Energy")] := by decide

/-- C7 (amended): `standardizeTopics` drops action-verb-prefixed topics and
stop words, deduplicates before title-casing, and title-cases each word;
it is not idempotent in general, but a second application reaches a fixed
point (applying it three times equals applying it twice), and
`standardizeTopics ["explain gravity", "Energy", "the"] = ["Energy"]`. -/
theorem standardizeTopics_props :
    (∀ l : List (List Nat),
      standardizeTopics (standardizeTopics (standardizeTopics l)) =
        standardizeTopics (standardizeTopics l))
    ∧ standardizeTopics [str ("explain gravity"), str ("Energy"), str ("the")] =
        [str ("Energy")] := by
  refine ⟨fun l => ?_, by decide⟩
  rw [standardizeTopics_double (standardizeTopics l), standardizeTopics_double l,
    dedupFirst_idem, ← standardizeTopics_double l]

end AnalyzeThePast
